import Mathlib

/-!
Verification of the KarmaBot reaction-based karma pipeline.

Shallow embedding of the karma-change pipeline of the KarmaBot repository:
trigger classification (app/config/karmic_triggers.py,
app/filters/karma_reaction.py), the reaction handler
(app/handlers/karma_reaction.py), the membership gate
(app/filters/user_is_chat_member.py), the percentile services
(app/services/karma_percentile.py, app/services/karma_percentile_pg.py),
the rate limiter (app/handlers/decorators/throttle.py) and the stored-message
cleanup (app/infrastructure/database/models/message.py).

Python floats are embedded as rationals (ℚ), datetimes as integers counted in
seconds, and Telegram identifiers as naturals.  Fallible transport calls are
embedded as Except values; database tables as lists of rows.
-/

namespace KarmaBot

/-! ## Trigger sets (app/config/karmic_triggers.py) -/

/-- The literal token PLUS from app/config/karmic_triggers.py. -/
def PLUS : String := "+"

/-- Positive trigger words (karmic_triggers.py, PLUS_WORDS). -/
def PLUS_WORDS : List String :=
  ["спасибо", "спс", "спасибочки", "спасибки", "благодарю", "пасиба",
   "пасеба", "посеба", "благодарочка", "thx", "мерси", "выручил", "сяп",
   "сяб", "сенк", "сенкс", "сяпки", "сябки", "сенью", "благодарствую",
   "thank", "thanks", "класс"]

/-- PLUS_TRIGGERS = frozenset({PLUS, *PLUS_WORDS}). -/
def PLUS_TRIGGERS : List String := PLUS :: PLUS_WORDS

/-- Positive reaction emoji (karmic_triggers.py, PLUS_EMOJI). -/
def PLUS_EMOJI : List String :=
  ["👍", "🙏", "🤝", "👏", "💯", "🏆", "😍", "🤩", "🔥", "💥", "❤‍🔥", "❤",
   "📝", "✍"]

/-- The literal token MINUS from app/config/karmic_triggers.py. -/
def MINUS : String := "-"

/-- MINUS_TRIGGERS = frozenset({MINUS}). -/
def MINUS_TRIGGERS : List String := [MINUS]

/-- Negative reaction emoji (karmic_triggers.py, MINUS_EMOJI). -/
def MINUS_EMOJI : List String := ["👎", "💔", "🤮", "💩"]

/-! ## Trigger classification (app/filters/karma_reaction.py) -/

/-- REACTION_COEFFICIENT = 0.1 (both app/filters/karma_reaction.py and
app/handlers/karma_reaction.py). -/
def REACTION_COEFFICIENT : ℚ := 1 / 10

/-- get_karma_change_sign_from_reaction (app/filters/karma_reaction.py,
lines 17 to 28): +1 for an emoji in PLUS_EMOJI, -1 for one in MINUS_EMOJI,
None otherwise. -/
def get_karma_change_sign_from_reaction (emoji : String) : Option Int :=
  if emoji ∈ PLUS_EMOJI then some 1
  else if emoji ∈ MINUS_EMOJI then some (-1)
  else none

/-- get_karma_change_from_reaction (app/handlers/karma_reaction.py,
lines 37 to 48): the coefficient itself, signed. -/
def get_karma_change_from_reaction (emoji : String) : Option ℚ :=
  if emoji ∈ PLUS_EMOJI then some REACTION_COEFFICIENT
  else if emoji ∈ MINUS_EMOJI then some (-REACTION_COEFFICIENT)
  else none

/-- A reaction attached to a message: aiogram's ReactionTypeEmoji carries an
emoji string; every other reaction type (custom emoji, paid) fails the
isinstance(_, ReactionTypeEmoji) test in the source and is skipped. -/
inductive ReactionType where
  | emoji (e : String)
  | custom
deriving DecidableEq

/-- The sign an element of new_reaction or old_reaction contributes before
negation: only ReactionTypeEmoji entries classify. -/
def reaction_emoji_sign (r : ReactionType) : Option Int :=
  match r with
  | .emoji e => get_karma_change_sign_from_reaction e
  | .custom => none

/-- karma_change_signs as accumulated by KarmaReactionFilter.__call__
(app/filters/karma_reaction.py, lines 64 to 84): the classification sign of
each added reaction, then the negated sign of each removed one. -/
def karma_change_signs (new_reaction old_reaction : List ReactionType) : List Int :=
  (new_reaction.filterMap reaction_emoji_sign)
    ++ (old_reaction.filterMap fun r => (reaction_emoji_sign r).map (fun s => -s))

/-- Per-chat settings row (karma_counting enables the pipeline,
karmic_restrictions enables auto-restriction). -/
structure ChatSettingsRow where
  karma_counting : Bool
  karmic_restrictions : Bool
deriving DecidableEq

/-- KarmaReactionFilter.__call__ (app/filters/karma_reaction.py, lines 40 to
108).  Returns the proposed karma change when the reaction is to be acted on
and none when the update is ignored: settings missing or karma_counting off,
no classified reaction, sign total zero, or a near-zero weighted change.
The reactor's power is read from UserKarma.get_power and enters as a
parameter. -/
def KarmaReactionFilter_call (chat_settings : Option ChatSettingsRow)
    (reactor_power : ℚ) (new_reaction old_reaction : List ReactionType) :
    Option ℚ :=
  match chat_settings with
  | none => none
  | some st =>
    if !st.karma_counting then none
    else
      let signs := karma_change_signs new_reaction old_reaction
      if signs.isEmpty then none
      else
        let total_sign : Int := signs.sum
        if total_sign = 0 then none
        else
          let total_karma_change : ℚ :=
            (total_sign : ℚ) * reactor_power * REACTION_COEFFICIENT
          if |total_karma_change| < 1 / 1000 then none
          else some total_karma_change

/-! ## Membership gate (app/filters/user_is_chat_member.py and
app/handlers/karma_reaction.py, is_user_chat_member) -/

/-- aiogram ChatMemberStatus values. -/
inductive ChatMemberStatus where
  | creator
  | administrator
  | member
  | restricted
  | left
  | kicked
deriving DecidableEq

/-- is_user_chat_member (app/handlers/karma_reaction.py, lines 51 to 68):
the transport's get_chat_member either returns a status or raises; any
exception yields False. -/
def is_user_chat_member (response : Except String ChatMemberStatus) : Bool :=
  match response with
  | .ok s =>
      s ∈ [ChatMemberStatus.creator, ChatMemberStatus.administrator,
           ChatMemberStatus.member, ChatMemberStatus.restricted]
  | .error _ => false

/-- UserIsChatMember.__call__ (app/filters/user_is_chat_member.py, lines 22
to 64): same status test and same fail-closed exception handling. -/
def UserIsChatMember_call (response : Except String ChatMemberStatus) : Bool :=
  match response with
  | .ok s =>
      s ∈ [ChatMemberStatus.creator, ChatMemberStatus.administrator,
           ChatMemberStatus.member, ChatMemberStatus.restricted]
  | .error _ => false

/-! ## Stored message authors (app/infrastructure/database/models/message.py) -/

/-- A row of the messages table: (chat, message_id) unique, author user and
message date. -/
structure MessageRow where
  chat_id : Nat
  message_id : Nat
  user_id : Nat
  date : Int
deriving DecidableEq

/-- Message.cleanup_old_records (message.py, lines 77 to 90): cutoff is
now minus `hours` hours; rows with date strictly before the cutoff are
deleted and their number returned.  Dates are seconds, so one hour is 3600. -/
def cleanup_old_records (rows : List MessageRow) (now : Int) (hours : Int) :
    List MessageRow × Nat :=
  let cutoff := now - hours * 3600
  (rows.filter (fun r => !decide (r.date < cutoff)),
   (rows.filter (fun r => decide (r.date < cutoff))).length)

/-! ## Rate limiter (app/handlers/decorators/throttle.py) -/

/-- A row of the karma_events table: the field how_match_change holds the
weighted change summed by the throttle's SUM(ABS(how_match_change)). -/
structure KarmaEventRow where
  user_from : Nat
  user_to : Nat
  chat : Nat
  how_match_change : ℚ
  date : Int
deriving DecidableEq

/-- RateLimit named tuple (throttle.py): rate and duration (seconds). -/
structure RateLimit where
  rate : Int
  duration : Int
deriving DecidableEq

/-- What one throttle wrapper invocation does: whether the wrapped function
ran and whether the on_throttled callback ran. -/
structure ThrottleResult where
  func_invoked : Bool
  on_throttled_invoked : Bool
deriving DecidableEq

/-- The aggregation of Throttle.throttled (throttle.py, lines 70 to 85):
COALESCE(SUM(ABS(how_match_change)), 0) over the reactor's KarmaEvents in
the chat with date >= start_time. -/
def throttle_total (events : List KarmaEventRow) (user chat : Nat)
    (start_time : Int) : ℚ :=
  ((events.filter fun e =>
      decide (e.user_from = user ∧ e.chat = chat ∧ start_time ≤ e.date)).map
    fun e => |e.how_match_change|).sum

/-- The aggregation of ThrottlePerTarget.throttled (throttle.py, lines 185
to 201): additionally filtered to user_to = target. -/
def throttle_total_per_target (events : List KarmaEventRow)
    (user chat target : Nat) (start_time : Int) : ℚ :=
  ((events.filter fun e =>
      decide (e.user_from = user ∧ e.chat = chat ∧ e.user_to = target ∧
        start_time ≤ e.date)).map
    fun e => |e.how_match_change|).sum

/-- The reactor's sum of absolute weighted changes inside the two-sided
window [now - duration, now]; the spec's description of the limiter. -/
def throttle_window_total (events : List KarmaEventRow) (user chat : Nat)
    (now duration : Int) : ℚ :=
  ((events.filter fun e =>
      decide (e.user_from = user ∧ e.chat = chat ∧
        now - duration ≤ e.date ∧ e.date ≤ now)).map
    fun e => |e.how_match_change|).sum

/-- Per-target variant of throttle_window_total. -/
def throttle_window_total_per_target (events : List KarmaEventRow)
    (user chat target : Nat) (now duration : Int) : ℚ :=
  ((events.filter fun e =>
      decide (e.user_from = user ∧ e.chat = chat ∧ e.user_to = target ∧
        now - duration ≤ e.date ∧ e.date ≤ now)).map
    fun e => |e.how_match_change|).sum

/-- The wrapper built by Throttle.throttled (throttle.py, lines 54 to 133):
checks the rate limits in order; on the first window whose total reaches
rate * user_power it calls on_throttled (when provided) and skips the
wrapped function; otherwise the wrapped function runs. -/
def Throttle_throttled (rate_limits : List RateLimit)
    (on_throttled_provided : Bool) (events : List KarmaEventRow)
    (user chat : Nat) (user_power : ℚ) (now : Int) : ThrottleResult :=
  match rate_limits with
  | [] => ⟨true, false⟩
  | rl :: rest =>
    let start_time := now - rl.duration
    let total_karma_given := throttle_total events user chat start_time
    let max_allowed : ℚ := (rl.rate : ℚ) * user_power
    if max_allowed ≤ total_karma_given then ⟨false, on_throttled_provided⟩
    else Throttle_throttled rest on_throttled_provided events user chat
      user_power now

/-- The wrapper built by ThrottlePerTarget.throttled (throttle.py, lines 168
to 253): same loop with the per-target aggregation. -/
def ThrottlePerTarget_throttled (rate_limits : List RateLimit)
    (on_throttled_provided : Bool) (events : List KarmaEventRow)
    (user chat target : Nat) (user_power : ℚ) (now : Int) : ThrottleResult :=
  match rate_limits with
  | [] => ⟨true, false⟩
  | rl :: rest =>
    let start_time := now - rl.duration
    let total_karma_given :=
      throttle_total_per_target events user chat target start_time
    let max_allowed : ℚ := (rl.rate : ℚ) * user_power
    if max_allowed ≤ total_karma_given then ⟨false, on_throttled_provided⟩
    else ThrottlePerTarget_throttled rest on_throttled_provided events user
      chat target user_power now

/-! ## Percentile services (app/services/karma_percentile.py and
app/services/karma_percentile_pg.py) -/

/-- A row of the user_karma table restricted to one chat. -/
structure UserKarmaRow where
  user : Nat
  karma : ℚ
deriving DecidableEq

/-- The body of _is_user_in_top_percentile_generic (karma_percentile.py,
lines 7 to 39) once the user's row is in hand: count of rows in the chat,
count of rows with strictly greater karma, pass iff the ratio is strictly
below the percentile. -/
def is_user_in_top_percentile_generic (user_karma : ℚ)
    (chat_karmas : List ℚ) (percentile : ℚ) : Bool :=
  let total_users := chat_karmas.length
  if total_users = 0 then false
  else
    let users_with_higher_karma :=
      (chat_karmas.filter fun k => decide (user_karma < k)).length
    decide ((users_with_higher_karma : ℚ) / (total_users : ℚ) < percentile)

/-- _is_user_in_top_percentile_generic over the chat's user_karma rows: the
user's row is looked up first and a missing row yields False. -/
def is_user_in_top_percentile_generic_rows (rows : List UserKarmaRow)
    (user : Nat) (percentile : ℚ) : Bool :=
  match rows.find? (fun r => r.user == user) with
  | none => false
  | some uk =>
      is_user_in_top_percentile_generic uk.karma (rows.map (·.karma))
        percentile

/-- PostgreSQL percentile_cont(q) WITHIN GROUP (ORDER BY karma): sort the
values, take h = q * (n - 1), and linearly interpolate between the values at
positions floor(h) and floor(h) + 1.  NULL (none) on an empty set. -/
def percentile_cont (q : ℚ) (vs : List ℚ) : Option ℚ :=
  match vs with
  | [] => none
  | _ :: _ =>
    let s := vs.mergeSort (fun a b => decide (a ≤ b))
    let n := s.length
    let h : ℚ := q * ((n : ℚ) - 1)
    let lo : Nat := (Int.floor h).toNat
    let frac : ℚ := h - (lo : ℚ)
    some (s.getD lo 0 + frac * (s.getD (lo + 1) 0 - s.getD lo 0))

/-- is_user_in_top_percentile (karma_percentile_pg.py, lines 7 to 50) once
the user's row is in hand: threshold = percentile_cont(1 - percentile) over
the chat's karma values, pass iff the user's karma is at least the
threshold; a NULL threshold yields False. -/
def is_user_in_top_percentile_pg (user_karma : ℚ) (chat_karmas : List ℚ)
    (percentile : ℚ) : Bool :=
  let threshold_percentile := 1 - percentile
  match percentile_cont threshold_percentile chat_karmas with
  | none => false
  | some threshold => decide (threshold ≤ user_karma)

/-- The percentile threshold hard-coded in the reaction handler's call
is_user_in_top_percentile(reactor_user, chat, percentile=0.3)
(app/handlers/karma_reaction.py, line 94). -/
def on_reaction_change_percentile : ℚ := 3 / 10

/-- The default of the required_percentile field of UserPercentileFilter
(app/filters/user_percentile.py, line 26: required_percentile: float = 0.3). -/
def UserPercentileFilter_required_percentile : ℚ := 3 / 10

/-! ## The reaction handler (app/handlers/karma_reaction.py,
on_reaction_change) -/

/-- aiogram chat types that matter to the handler's first gate. -/
inductive ChatType where
  | group
  | supergroup
  | privateChat
  | channel
deriving DecidableEq

/-- The database state the reaction handler can touch: users and chats
(get_or_create), user_karma rows and karma_events (change_karma). -/
structure DBState where
  users : List Nat
  chats : List Nat
  user_karmas : List (Nat × Nat × ℚ)
  karma_events : List KarmaEventRow
deriving DecidableEq

/-- UserRepo.get_or_create_user: inserts the tg id when absent, otherwise
leaves the table unchanged. -/
def get_or_create_user (db : DBState) (tg_id : Nat) : DBState :=
  if tg_id ∈ db.users then db else { db with users := tg_id :: db.users }

/-- Chat.get_or_create: inserts the chat id when absent, otherwise leaves
the table unchanged. -/
def get_or_create_chat (db : DBState) (chat_id : Nat) : DBState :=
  if chat_id ∈ db.chats then db else { db with chats := chat_id :: db.chats }

/-- A MessageReactionUpdated event as the handler reads it. -/
structure ReactionUpdate where
  chat_type : ChatType
  chat_id : Nat
  reactor_id : Nat
  new_reaction : List ReactionType
  old_reaction : List ReactionType

/-- karma_changes as accumulated by on_reaction_change
(app/handlers/karma_reaction.py, lines 112 to 128): the signed coefficient
of each added reaction, then the negated one of each removed reaction. -/
def handler_karma_changes (new_reaction old_reaction : List ReactionType) :
    List ℚ :=
  (new_reaction.filterMap fun r =>
    match r with
    | .emoji e => get_karma_change_from_reaction e
    | .custom => none)
    ++ (old_reaction.filterMap fun r =>
      match r with
      | .emoji e => (get_karma_change_from_reaction e).map (fun c => -c)
      | .custom => none)

/-- on_reaction_change (app/handlers/karma_reaction.py, lines 71 to 180) as
a transformer of the database state.  The outcomes of the percentile check,
the membership check and the forward-message author resolution enter as
parameters, as does change_karma (a service outside the embedded files; it
is only ever reached with a resolved author).  Every early return leaves the
state where the source leaves it: untouched before the chat-type gate,
after the reactor and chat get_or_create upserts for every later gate. -/
def on_reaction_change (db : DBState) (upd : ReactionUpdate)
    (chat_settings : Option ChatSettingsRow) (in_top_percentile : Bool)
    (is_chat_member : Bool) (author : Option Nat)
    (change_karma : DBState → Nat → Nat → Nat → ℚ → DBState) : DBState :=
  if upd.chat_type ≠ ChatType.group ∧ upd.chat_type ≠ ChatType.supergroup
  then db
  else
    let db1 := get_or_create_user db upd.reactor_id
    let db2 := get_or_create_chat db1 upd.chat_id
    match chat_settings with
    | none => db2
    | some st =>
      if !st.karma_counting then db2
      else if !in_top_percentile then db2
      else if !is_chat_member then db2
      else
        let karma_changes :=
          handler_karma_changes upd.new_reaction upd.old_reaction
        if karma_changes.isEmpty then db2
        else
          let total_karma_change := karma_changes.sum
          if |total_karma_change| < 1 / 1000 then db2
          else
            match author with
            | none => db2
            | some target_id =>
              let db3 := get_or_create_user db2 target_id
              change_karma db3 upd.reactor_id target_id upd.chat_id
                total_karma_change

/-! ## Theorems -/

/-- Claim C6: for every reactor and chat, the membership gate passes iff the
transport's get_chat_member call returns a status in {CREATOR, ADMINISTRATOR,
MEMBER, RESTRICTED}, and any transport error during the check makes the gate
return false (fail closed); the filter variant UserIsChatMember agrees with
the handler helper. -/
theorem membership_gate_spec (response : Except String ChatMemberStatus) :
    (is_user_chat_member response = true ↔
      ∃ s, response = Except.ok s ∧
        (s = ChatMemberStatus.creator ∨ s = ChatMemberStatus.administrator ∨
         s = ChatMemberStatus.member ∨ s = ChatMemberStatus.restricted)) ∧
    (∀ err : String, is_user_chat_member (Except.error err) = false) ∧
    UserIsChatMember_call response = is_user_chat_member response := by
  refine ⟨?_, fun _ => rfl, ?_⟩
  · cases response with
    | ok s => cases s <;> simp [is_user_chat_member]
    | error e => simp [is_user_chat_member]
  · cases response <;> rfl

/-- Claim C7: cleanup deletes exactly the rows dated strictly before
now minus the retention and returns their count, so the surviving set equals
the rows with date at least now minus the retention. -/
theorem cleanup_old_records_spec (rows : List MessageRow) (now hours : Int) :
    (cleanup_old_records rows now hours).1 =
      rows.filter (fun r => decide (now - hours * 3600 ≤ r.date)) ∧
    (cleanup_old_records rows now hours).2 =
      (rows.filter (fun r => decide (r.date < now - hours * 3600))).length := by
  refine ⟨?_, rfl⟩
  show rows.filter _ = rows.filter _
  apply List.filter_congr
  intro r _
  by_cases h : r.date < now - hours * 3600
  · simp [h, not_le.mpr h]
  · simp [h, not_lt.mp h]

/-- Claim C8 counterexample: the percentile gate's default required
percentile in the source is not 0.5, neither in the UserPercentileFilter
default nor in the reaction handler's hard-coded call. -/
theorem percentile_default_not_half :
    UserPercentileFilter_required_percentile ≠ 1 / 2 ∧
    on_reaction_change_percentile ≠ 1 / 2 := by
  constructor <;>
    norm_num [UserPercentileFilter_required_percentile,
      on_reaction_change_percentile]

/-- Claim C8 amended: the percentile gate applied to reactors uses a default
required percentile of 0.3, both as the UserPercentileFilter field default
and in the handler's call to is_user_in_top_percentile. -/
theorem percentile_default_is_three_tenths :
    UserPercentileFilter_required_percentile = 3 / 10 ∧
    on_reaction_change_percentile = 3 / 10 := ⟨rfl, rfl⟩

/-- Claim C10: the positive and negative trigger sets are disjoint, for both
emoji and text triggers, and the classification function returns exactly one
of +1, -1 or none for every emoji, so the sign of a trigger is
well-defined. -/
theorem trigger_sets_disjoint :
    (∀ e ∈ PLUS_EMOJI, e ∉ MINUS_EMOJI) ∧
    (∀ t ∈ PLUS_TRIGGERS, t ∉ MINUS_TRIGGERS) ∧
    (∀ e : String,
      (get_karma_change_sign_from_reaction e = some 1 ↔ e ∈ PLUS_EMOJI) ∧
      (get_karma_change_sign_from_reaction e = some (-1) ↔ e ∈ MINUS_EMOJI) ∧
      (get_karma_change_sign_from_reaction e = none ↔
        e ∉ PLUS_EMOJI ∧ e ∉ MINUS_EMOJI)) := by
  have hdisj : ∀ e ∈ PLUS_EMOJI, e ∉ MINUS_EMOJI := by decide
  refine ⟨hdisj, by decide, fun e => ?_⟩
  by_cases hp : e ∈ PLUS_EMOJI
  · have hm := hdisj e hp
    simp [get_karma_change_sign_from_reaction, hp, hm]
  · by_cases hm : e ∈ MINUS_EMOJI
    · simp [get_karma_change_sign_from_reaction, hp, hm]
    · simp [get_karma_change_sign_from_reaction, hp, hm]

/-- Removed reactions contribute the negated classification signs: summing
them negates the sum. -/
theorem neg_filterMap_sum (l : List ReactionType) :
    (l.filterMap fun r => (reaction_emoji_sign r).map (fun s => -s)).sum =
      -(l.filterMap reaction_emoji_sign).sum := by
  induction l with
  | nil => simp
  | cons r t ih =>
    cases h : reaction_emoji_sign r <;>
      simp [List.filterMap_cons, h, ih] <;> ring

/-- The sign list of KarmaReactionFilter sums to the added signs minus the
removed signs. -/
theorem karma_change_signs_sum (newR oldR : List ReactionType) :
    (karma_change_signs newR oldR).sum =
      (newR.filterMap reaction_emoji_sign).sum -
        (oldR.filterMap reaction_emoji_sign).sum := by
  unfold karma_change_signs
  rw [List.sum_append, neg_filterMap_sum]
  ring

/-- For a single emoji reaction, the add call and the remove call either
both abort or return exactly opposite values scaled from one sign. -/
theorem single_emoji_calls (st : ChatSettingsRow) (p : ℚ) (e : String) :
    (KarmaReactionFilter_call (some st) p [ReactionType.emoji e] [] = none ∧
     KarmaReactionFilter_call (some st) p [] [ReactionType.emoji e] = none) ∨
    ∃ v : Int,
      KarmaReactionFilter_call (some st) p [ReactionType.emoji e] [] =
        some ((v : ℚ) * p * REACTION_COEFFICIENT) ∧
      KarmaReactionFilter_call (some st) p [] [ReactionType.emoji e] =
        some (-((v : ℚ) * p * REACTION_COEFFICIENT)) := by
  cases hs : get_karma_change_sign_from_reaction e with
  | none =>
    left
    constructor <;>
      simp [KarmaReactionFilter_call, karma_change_signs,
        reaction_emoji_sign, hs, ite_self]
  | some v =>
    have hsigns1 : karma_change_signs [ReactionType.emoji e] [] = [v] := by
      simp [karma_change_signs, reaction_emoji_sign, hs]
    have hsigns2 : karma_change_signs [] [ReactionType.emoji e] = [-v] := by
      simp [karma_change_signs, reaction_emoji_sign, hs]
    have habs : |(-(v : ℚ)) * p * REACTION_COEFFICIENT| =
        |(v : ℚ) * p * REACTION_COEFFICIENT| := by
      rw [abs_eq_abs]; right; ring
    by_cases hkc : st.karma_counting
    · by_cases hv : v = 0
      · left
        constructor <;>
          simp [KarmaReactionFilter_call, hsigns1, hsigns2, hkc, hv]
      · by_cases hsmall : |(v : ℚ) * p * REACTION_COEFFICIENT| < 1 / 1000
        · left
          refine ⟨?_, ?_⟩
          · simp [KarmaReactionFilter_call, hsigns1, hkc, hv]
            simpa using hsmall
          · simp [KarmaReactionFilter_call, hsigns2, hkc, hv]
            simpa using habs.trans_lt hsmall
        · right
          refine ⟨v, ?_, ?_⟩
          · simp [KarmaReactionFilter_call, hsigns1, hkc, hv]
            simpa using not_lt.mp hsmall
          · simp [KarmaReactionFilter_call, hsigns2, hkc, hv]
            simpa using not_lt.mp (fun hcon => hsmall (habs ▸ hcon))
    · left
      constructor <;> simp [KarmaReactionFilter_call, hkc]

/-- Claim C3: the proposed karma change of the reaction filter equals the
sum of the classification signs of the added reactions minus those of the
removed ones, multiplied by the reactor's power and the reaction coefficient
0.1; a zero summed sign means the update is ignored with no karma change;
and a reaction added and then removed by the same reactor yields a net
karma change of 0 across the two updates. -/
theorem reaction_add_remove_spec (st : ChatSettingsRow) (p : ℚ)
    (newR oldR : List ReactionType) (e : String) :
    (∀ c, KarmaReactionFilter_call (some st) p newR oldR = some c →
      c = (((newR.filterMap reaction_emoji_sign).sum -
            (oldR.filterMap reaction_emoji_sign).sum : Int) : ℚ) * p *
          REACTION_COEFFICIENT) ∧
    ((newR.filterMap reaction_emoji_sign).sum =
        (oldR.filterMap reaction_emoji_sign).sum →
      KarmaReactionFilter_call (some st) p newR oldR = none) ∧
    (∀ c₁ c₂,
      KarmaReactionFilter_call (some st) p [ReactionType.emoji e] [] =
        some c₁ →
      KarmaReactionFilter_call (some st) p [] [ReactionType.emoji e] =
        some c₂ →
      c₁ + c₂ = 0) ∧
    (KarmaReactionFilter_call (some st) p [ReactionType.emoji e] [] = none ↔
      KarmaReactionFilter_call (some st) p [] [ReactionType.emoji e] =
        none) := by
  refine ⟨?_, ?_, ?_, ?_⟩
  · intro c hc
    simp only [KarmaReactionFilter_call] at hc
    split_ifs at hc
    rw [← karma_change_signs_sum]
    exact (Option.some_inj.mp hc).symm
  · intro hsum
    have h0 : (karma_change_signs newR oldR).sum = 0 := by
      rw [karma_change_signs_sum, hsum]; ring
    simp only [KarmaReactionFilter_call]
    split_ifs <;> first | rfl | exact absurd h0 (by assumption)
  · intro c₁ c₂ h1 h2
    rcases single_emoji_calls st p e with ⟨hn, _⟩ | ⟨v, hv1, hv2⟩
    · rw [hn] at h1
      exact Option.noConfusion h1
    · rw [hv1] at h1
      rw [hv2] at h2
      rw [← Option.some_inj.mp h1, ← Option.some_inj.mp h2]
      ring
  · rcases single_emoji_calls st p e with ⟨hn1, hn2⟩ | ⟨v, hv1, hv2⟩
    · rw [hn1, hn2]
    · rw [hv1, hv2]
      simp

/-- Claim C9: when the summed classification sign is nonzero but the
computed total karma change, sign times power times 0.1, has absolute value
below 0.001, the reaction filter ignores the update and proposes no karma
change. -/
theorem near_zero_reaction_ignored (chat_settings : Option ChatSettingsRow)
    (p : ℚ) (newR oldR : List ReactionType)
    (hsum : (karma_change_signs newR oldR).sum ≠ 0)
    (hsmall : |((karma_change_signs newR oldR).sum : ℚ) * p *
        REACTION_COEFFICIENT| < 1 / 1000) :
    KarmaReactionFilter_call chat_settings p newR oldR = none := by
  match chat_settings with
  | none => rfl
  | some st =>
    simp only [KarmaReactionFilter_call]
    split_ifs <;> first | rfl | exact absurd hsmall (by assumption)

/-- Witness for claim C9: a reactor of power 1/200 adding a single thumbs-up
has summed sign 1 yet weighted change 1/2000, which is ignored. -/
theorem near_zero_reaction_ignored_witness :
    (karma_change_signs [ReactionType.emoji "👍"] []).sum ≠ 0 ∧
    |((karma_change_signs [ReactionType.emoji "👍"] []).sum : ℚ) * (1 / 200) *
        REACTION_COEFFICIENT| < 1 / 1000 ∧
    KarmaReactionFilter_call (some ⟨true, false⟩) (1 / 200)
      [ReactionType.emoji "👍"] [] = none := by
  have h : (karma_change_signs [ReactionType.emoji "👍"] []).sum = 1 := by
    decide
  refine ⟨by decide, ?_, ?_⟩
  · rw [h]
    norm_num [REACTION_COEFFICIENT, abs_lt]
  · exact near_zero_reaction_ignored (some ⟨true, false⟩) (1 / 200)
      [ReactionType.emoji "👍"] [] (by decide)
      (by rw [h]; norm_num [REACTION_COEFFICIENT, abs_lt])

/-- With every stored event dated at or before now, the one-sided aggregate
the code computes (date >= now - duration) equals the two-sided window
total over [now - duration, now]. -/
theorem throttle_total_window_eq (events : List KarmaEventRow)
    (user chat : Nat) (now : Int) (hdates : ∀ e ∈ events, e.date ≤ now)
    (d : Int) :
    throttle_total events user chat (now - d) =
      throttle_window_total events user chat now d := by
  unfold throttle_total throttle_window_total
  congr 1
  congr 1
  apply List.filter_congr
  intro e he
  have hd := hdates e he
  simp [decide_eq_decide, hd]

/-- Per-target version of throttle_total_window_eq. -/
theorem throttle_total_per_target_window_eq (events : List KarmaEventRow)
    (user chat target : Nat) (now : Int)
    (hdates : ∀ e ∈ events, e.date ≤ now) (d : Int) :
    throttle_total_per_target events user chat target (now - d) =
      throttle_window_total_per_target events user chat target now d := by
  unfold throttle_total_per_target throttle_window_total_per_target
  congr 1
  congr 1
  apply List.filter_congr
  intro e he
  have hd := hdates e he
  simp [decide_eq_decide, hd]

/-- When every rate limit passes, the global throttle invokes the wrapped
function and never calls on_throttled. -/
theorem Throttle_throttled_pass (rate_limits : List RateLimit)
    (prov : Bool) (events : List KarmaEventRow) (user chat : Nat) (p : ℚ)
    (now : Int)
    (hall : ∀ rl ∈ rate_limits,
      throttle_total events user chat (now - rl.duration) < (rl.rate : ℚ) * p) :
    Throttle_throttled rate_limits prov events user chat p now =
      ⟨true, false⟩ := by
  induction rate_limits with
  | nil => rfl
  | cons rl rest ih =>
    have hrl := hall rl (List.mem_cons_self rl rest)
    simp only [Throttle_throttled]
    rw [if_neg (not_le.mpr hrl)]
    exact ih fun rl' h => hall rl' (List.mem_cons_of_mem _ h)

/-- When some rate limit is reached or exceeded, the global throttle skips
the wrapped function and calls on_throttled exactly when provided. -/
theorem Throttle_throttled_block (rate_limits : List RateLimit)
    (prov : Bool) (events : List KarmaEventRow) (user chat : Nat) (p : ℚ)
    (now : Int) (rl0 : RateLimit) (h0 : rl0 ∈ rate_limits)
    (hv : (rl0.rate : ℚ) * p ≤
      throttle_total events user chat (now - rl0.duration)) :
    Throttle_throttled rate_limits prov events user chat p now =
      ⟨false, prov⟩ := by
  induction rate_limits with
  | nil => exact absurd h0 (List.not_mem_nil rl0)
  | cons rl rest ih =>
    simp only [Throttle_throttled]
    by_cases h : (rl.rate : ℚ) * p ≤
        throttle_total events user chat (now - rl.duration)
    · rw [if_pos h]
    · rw [if_neg h]
      rcases List.mem_cons.mp h0 with h1 | h1
      · subst h1; exact absurd hv h
      · exact ih h1

/-- Per-target version of Throttle_throttled_pass. -/
theorem ThrottlePerTarget_throttled_pass (rate_limits : List RateLimit)
    (prov : Bool) (events : List KarmaEventRow) (user chat target : Nat)
    (p : ℚ) (now : Int)
    (hall : ∀ rl ∈ rate_limits,
      throttle_total_per_target events user chat target (now - rl.duration) <
        (rl.rate : ℚ) * p) :
    ThrottlePerTarget_throttled rate_limits prov events user chat target p
      now = ⟨true, false⟩ := by
  induction rate_limits with
  | nil => rfl
  | cons rl rest ih =>
    have hrl := hall rl (List.mem_cons_self rl rest)
    simp only [ThrottlePerTarget_throttled]
    rw [if_neg (not_le.mpr hrl)]
    exact ih fun rl' h => hall rl' (List.mem_cons_of_mem _ h)

/-- Per-target version of Throttle_throttled_block. -/
theorem ThrottlePerTarget_throttled_block (rate_limits : List RateLimit)
    (prov : Bool) (events : List KarmaEventRow) (user chat target : Nat)
    (p : ℚ) (now : Int) (rl0 : RateLimit) (h0 : rl0 ∈ rate_limits)
    (hv : (rl0.rate : ℚ) * p ≤
      throttle_total_per_target events user chat target (now - rl0.duration)) :
    ThrottlePerTarget_throttled rate_limits prov events user chat target p
      now = ⟨false, prov⟩ := by
  induction rate_limits with
  | nil => exact absurd h0 (List.not_mem_nil rl0)
  | cons rl rest ih =>
    simp only [ThrottlePerTarget_throttled]
    by_cases h : (rl.rate : ℚ) * p ≤
        throttle_total_per_target events user chat target (now - rl.duration)
    · rw [if_pos h]
    · rw [if_neg h]
      rcases List.mem_cons.mp h0 with h1 | h1
      · subst h1; exact absurd hv h
      · exact ih h1

/-- Claim C1: for every configured rate-limit pair, the throttle-wrapped
karma-change handler is invoked only when the reactor's total of absolute
weighted changes over their KarmaEvents in the chat (per-target variant:
restricted to the target) within [now - window, now] is strictly below
rate times the reactor's power; when any pair's total reaches that bound
the wrapped function is skipped and on_throttled runs exactly when
provided. -/
theorem throttle_rate_limits_spec (rate_limits : List RateLimit)
    (prov : Bool) (events : List KarmaEventRow) (user chat target : Nat)
    (p : ℚ) (now : Int) (hdates : ∀ e ∈ events, e.date ≤ now) :
    ((Throttle_throttled rate_limits prov events user chat p
        now).func_invoked = true ↔
      ∀ rl ∈ rate_limits,
        throttle_window_total events user chat now rl.duration <
          (rl.rate : ℚ) * p) ∧
    ((∃ rl ∈ rate_limits, (rl.rate : ℚ) * p ≤
        throttle_window_total events user chat now rl.duration) →
      Throttle_throttled rate_limits prov events user chat p now =
        ⟨false, prov⟩) ∧
    ((ThrottlePerTarget_throttled rate_limits prov events user chat target p
        now).func_invoked = true ↔
      ∀ rl ∈ rate_limits,
        throttle_window_total_per_target events user chat target now
          rl.duration < (rl.rate : ℚ) * p) ∧
    ((∃ rl ∈ rate_limits, (rl.rate : ℚ) * p ≤
        throttle_window_total_per_target events user chat target now
          rl.duration) →
      ThrottlePerTarget_throttled rate_limits prov events user chat target p
        now = ⟨false, prov⟩) := by
  have e1 := throttle_total_window_eq events user chat now hdates
  have e2 := throttle_total_per_target_window_eq events user chat target now
    hdates
  simp only [← e1, ← e2]
  refine ⟨⟨?_, ?_⟩, ?_, ⟨?_, ?_⟩, ?_⟩
  · intro hinv rl hrl
    by_contra hc
    have hb := Throttle_throttled_block rate_limits prov events user chat p
      now rl hrl (not_lt.mp hc)
    rw [hb] at hinv
    exact Bool.noConfusion hinv
  · intro hall
    rw [Throttle_throttled_pass rate_limits prov events user chat p now hall]
  · rintro ⟨rl, hrl, hv⟩
    exact Throttle_throttled_block rate_limits prov events user chat p now
      rl hrl hv
  · intro hinv rl hrl
    by_contra hc
    have hb := ThrottlePerTarget_throttled_block rate_limits prov events
      user chat target p now rl hrl (not_lt.mp hc)
    rw [hb] at hinv
    exact Bool.noConfusion hinv
  · intro hall
    rw [ThrottlePerTarget_throttled_pass rate_limits prov events user chat
      target p now hall]
  · rintro ⟨rl, hrl, hv⟩
    exact ThrottlePerTarget_throttled_block rate_limits prov events user
      chat target p now rl hrl hv

/-- Witness for claim C1: with no stored events, one (3, 1h) limit and
power 1, both throttles invoke the wrapped function. -/
theorem throttle_rate_limits_spec_witness :
    (∀ e ∈ ([] : List KarmaEventRow), e.date ≤ (0 : Int)) ∧
    (Throttle_throttled [⟨3, 3600⟩] true [] 1 2 1 0).func_invoked = true ∧
    (ThrottlePerTarget_throttled [⟨3, 3600⟩] true [] 1 2 3 1 0).func_invoked
      = true := by
  have hd : ∀ e ∈ ([] : List KarmaEventRow), e.date ≤ (0 : Int) := by simp
  have hmain := throttle_rate_limits_spec [⟨3, 3600⟩] true [] 1 2 3 1 0 hd
  refine ⟨hd, ?_, ?_⟩
  · refine hmain.1.mpr ?_
    intro rl hrl
    rcases List.mem_singleton.mp hrl with rfl
    simp [throttle_window_total]
  · refine hmain.2.2.1.mpr ?_
    intro rl hrl
    rcases List.mem_singleton.mp hrl with rfl
    simp [throttle_window_total_per_target]

/-- The reactor/chat upserts preceding the author resolution touch neither
the user_karma rows nor the karma events. -/
theorem db2_karma_events (db : DBState) (r c : Nat) :
    (get_or_create_chat (get_or_create_user db r) c).karma_events =
      db.karma_events := by
  unfold get_or_create_chat get_or_create_user
  split_ifs <;> rfl

/-- Companion of db2_karma_events for the user_karma rows. -/
theorem db2_user_karmas (db : DBState) (r c : Nat) :
    (get_or_create_chat (get_or_create_user db r) c).user_karmas =
      db.user_karmas := by
  unfold get_or_create_chat get_or_create_user
  split_ifs <;> rfl

/-- The chat upsert leaves the users table unchanged. -/
theorem get_or_create_chat_users (d : DBState) (c : Nat) :
    (get_or_create_chat d c).users = d.users := by
  unfold get_or_create_chat
  split_ifs <;> rfl

/-- Every aborted run of the reaction handler, whether the percentile gate
failed or the author is unknown, leaves karma events and user_karma rows
untouched; the users and chats tables are either untouched (wrong chat
type) or exactly the result of the reactor and chat get_or_create
upserts. -/
theorem on_reaction_change_aborted (db : DBState) (upd : ReactionUpdate)
    (cs : Option ChatSettingsRow) (itp mem : Bool) (author : Option Nat)
    (ck : DBState → Nat → Nat → Nat → ℚ → DBState)
    (habort : itp = false ∨ author = none) :
    (on_reaction_change db upd cs itp mem author ck).karma_events =
      db.karma_events ∧
    (on_reaction_change db upd cs itp mem author ck).user_karmas =
      db.user_karmas ∧
    ((on_reaction_change db upd cs itp mem author ck).users = db.users ∧
        (on_reaction_change db upd cs itp mem author ck).chats = db.chats ∨
      (on_reaction_change db upd cs itp mem author ck).users =
          (get_or_create_user db upd.reactor_id).users ∧
        (on_reaction_change db upd cs itp mem author ck).chats =
          (get_or_create_chat (get_or_create_user db upd.reactor_id)
            upd.chat_id).chats) := by
  have base : ∀ x : DBState,
      x = get_or_create_chat (get_or_create_user db upd.reactor_id)
            upd.chat_id →
      x.karma_events = db.karma_events ∧ x.user_karmas = db.user_karmas ∧
      (x.users = db.users ∧ x.chats = db.chats ∨
        x.users = (get_or_create_user db upd.reactor_id).users ∧
        x.chats = (get_or_create_chat (get_or_create_user db
          upd.reactor_id) upd.chat_id).chats) := by
    rintro x rfl
    exact ⟨db2_karma_events db upd.reactor_id upd.chat_id,
      db2_user_karmas db upd.reactor_id upd.chat_id,
      Or.inr ⟨get_or_create_chat_users _ _, rfl⟩⟩
  unfold on_reaction_change
  by_cases h1 : upd.chat_type ≠ ChatType.group ∧
      upd.chat_type ≠ ChatType.supergroup
  · rw [if_pos h1]
    exact ⟨rfl, rfl, Or.inl ⟨rfl, rfl⟩⟩
  · rw [if_neg h1]
    cases cs with
    | none => exact base _ rfl
    | some st =>
      rcases habort with hitp | hauthor
      · subst hitp
        exact base _ (by split_ifs <;> first | rfl | simp_all [ite_self])
      · subst hauthor
        exact base _ (by split_ifs <;> first | rfl | simp_all [ite_self])

/-- Claim C4: the generic percentile check returns false for a user without
a UserKarma row; with a row it passes iff the count of strictly greater
karma over the total row count is strictly below the percentile; a user
tied at the top has position 0 and passes any positive threshold; and a
reactor failing the gate never changes the stored karma events. -/
theorem generic_percentile_spec (rows : List UserKarmaRow) (user : Nat)
    (p : ℚ) :
    (rows.find? (fun r => r.user == user) = none →
      is_user_in_top_percentile_generic_rows rows user p = false) ∧
    (∀ uk, rows.find? (fun r => r.user == user) = some uk →
      (is_user_in_top_percentile_generic_rows rows user p = true ↔
        ((rows.filter fun r => decide (uk.karma < r.karma)).length : ℚ) /
          (rows.length : ℚ) < p)) ∧
    (∀ uk, rows.find? (fun r => r.user == user) = some uk →
      (∀ r ∈ rows, r.karma ≤ uk.karma) → 0 < p →
      is_user_in_top_percentile_generic_rows rows user p = true) ∧
    (∀ (db : DBState) (upd : ReactionUpdate) (cs : Option ChatSettingsRow)
        (mem : Bool) (author : Option Nat)
        (ck : DBState → Nat → Nat → Nat → ℚ → DBState),
      is_user_in_top_percentile_generic_rows rows user p = false →
      (on_reaction_change db upd cs
          (is_user_in_top_percentile_generic_rows rows user p) mem author
          ck).karma_events = db.karma_events) := by
  have hcount : ∀ uk : UserKarmaRow,
      ((rows.map (·.karma)).filter fun k => decide (uk.karma < k)).length =
        (rows.filter fun r => decide (uk.karma < r.karma)).length := by
    intro uk
    rw [List.filter_map, List.length_map]
    rfl
  have hkey : ∀ uk, rows.find? (fun r => r.user == user) = some uk →
      (is_user_in_top_percentile_generic_rows rows user p = true ↔
        ((rows.filter fun r => decide (uk.karma < r.karma)).length : ℚ) /
          (rows.length : ℚ) < p) := by
    intro uk hfind
    have hmem : uk ∈ rows := List.mem_of_find?_eq_some hfind
    have hpos : 0 < rows.length :=
      List.length_pos.mpr (List.ne_nil_of_mem hmem)
    simp only [is_user_in_top_percentile_generic_rows, hfind,
      is_user_in_top_percentile_generic, List.length_map, hcount uk]
    rw [if_neg hpos.ne']
    exact decide_eq_true_iff
  refine ⟨?_, hkey, ?_, ?_⟩
  · intro h
    simp [is_user_in_top_percentile_generic_rows, h]
  · intro uk hfind htop hp
    rw [hkey uk hfind]
    have hzero : (rows.filter fun r => decide (uk.karma < r.karma)) = [] := by
      apply List.filter_eq_nil_iff.mpr
      intro r hr
      simpa using not_lt.mpr (htop r hr)
    rw [hzero]
    simpa using hp
  · intro db upd cs mem author ck h
    rw [h]
    exact (on_reaction_change_aborted db upd cs false mem author ck
      (Or.inl rfl)).1

/-- Claim C5: a reaction update whose message author cannot be determined
aborts silently with no database writes at all: the users, chats,
user-karma rows and karma events come out exactly as they were.  The two
membership hypotheses hold in every run that reaches the author
resolution: the forward-message lookup comes after the settings gate
(a ChatSettings row exists, so the chat row it references exists) and
after the percentile gate (both percentile paths return False for a
reactor without a UserKarma row, and that row references an existing
users row), so the reactor and the chat were already stored and the two
preceding get_or_create upserts are no-ops. -/
theorem unknown_author_no_writes (db : DBState) (upd : ReactionUpdate)
    (cs : Option ChatSettingsRow) (itp mem : Bool)
    (ck : DBState → Nat → Nat → Nat → ℚ → DBState)
    (hr : upd.reactor_id ∈ db.users) (hc : upd.chat_id ∈ db.chats) :
    on_reaction_change db upd cs itp mem none ck = db := by
  have h1 : get_or_create_user db upd.reactor_id = db := by
    unfold get_or_create_user
    rw [if_pos hr]
  have h2 : get_or_create_chat db upd.chat_id = db := by
    unfold get_or_create_chat
    rw [if_pos hc]
  cases cs with
  | none =>
    simp only [on_reaction_change, h1, h2]
    split_ifs <;> rfl
  | some st =>
    simp only [on_reaction_change, h1, h2]
    split_ifs <;> first | rfl | simp_all [ite_self]

/-- Witness for claim C5: a stored reactor 5 and chat 1, a thumbs-up past
every gate, and an unknown author leave the database exactly unchanged. -/
theorem unknown_author_no_writes_witness :
    (5 ∈ (⟨[5], [1], [], []⟩ : DBState).users ∧
      1 ∈ (⟨[5], [1], [], []⟩ : DBState).chats) ∧
    on_reaction_change ⟨[5], [1], [], []⟩
        ⟨ChatType.group, 1, 5, [ReactionType.emoji "👍"], []⟩
        (some ⟨true, false⟩) true true none (fun db _ _ _ _ => db) =
      (⟨[5], [1], [], []⟩ : DBState) :=
  ⟨⟨by simp, by simp⟩,
   unknown_author_no_writes ⟨[5], [1], [], []⟩
     ⟨ChatType.group, 1, 5, [ReactionType.emoji "👍"], []⟩
     (some ⟨true, false⟩) true true (fun db _ _ _ _ => db)
     (by simp) (by simp)⟩

/-- In a sorted list, the entries at or below a value k occupy exactly the
first length - countP (k < x) positions. -/
theorem sorted_getElem_le_iff (k : ℚ) :
    ∀ (s : List ℚ), List.Pairwise (· ≤ ·) s →
      ∀ i, ∀ hi : i < s.length,
        (s[i] ≤ k ↔ i < s.length - s.countP (fun x => decide (k < x))) := by
  intro s
  induction s with
  | nil => intro _ i hi; simp at hi
  | cons a t ih =>
    intro hs i hi
    obtain ⟨ha, ht⟩ := List.pairwise_cons.mp hs
    by_cases hka : k < a
    · have hall : ∀ x ∈ a :: t, k < x := by
        intro x hx
        rcases List.mem_cons.mp hx with rfl | hx
        · exact hka
        · exact lt_of_lt_of_le hka (ha x hx)
      have hc : (a :: t).countP (fun x => decide (k < x)) =
          (a :: t).length := by
        apply List.countP_eq_length.mpr
        intro x hx
        simpa using hall x hx
      rw [hc, Nat.sub_self]
      constructor
      · intro hle
        exact absurd (lt_of_lt_of_le (hall _ (List.getElem_mem hi)) hle)
          (lt_irrefl k)
      · intro h
        omega
    · have hak : a ≤ k := not_lt.mp hka
      have hc : (a :: t).countP (fun x => decide (k < x)) =
          t.countP (fun x => decide (k < x)) := by
        rw [List.countP_cons]
        simp [hka]
      have hct := @List.countP_le_length ℚ (fun x => decide (k < x)) t
      cases i with
      | zero =>
        rw [hc]
        simp only [List.getElem_cons_zero, List.length_cons]
        constructor
        · intro _; omega
        · intro _; exact hak
      | succ j =>
        have hj : j < t.length := by simpa using hi
        have hiff := ih ht j hj
        rw [hc]
        simp only [List.getElem_cons_succ, List.length_cons]
        constructor
        · intro h
          have := hiff.mp h
          omega
        · intro h
          apply hiff.mpr
          omega

/-- A member of the list contributes one entry that is not strictly greater
than itself, so the strictly-greater count stays below the length. -/
theorem countP_lt_length_of_mem (s : List ℚ) (k : ℚ) (hk : k ∈ s) :
    s.countP (fun x => decide (k < x)) < s.length := by
  by_contra h
  have heq : s.countP (fun x => decide (k < x)) = s.length :=
    le_antisymm (List.countP_le_length _) (not_lt.mp h)
  have := List.countP_eq_length.mp heq k hk
  simp at this

/-- Entries of a sorted list are monotone in the index. -/
theorem sorted_getElem_mono (s : List ℚ) (hs : List.Pairwise (· ≤ ·) s)
    {i j : Nat} (hi : i < s.length) (hj : j < s.length) (hij : i ≤ j) :
    s[i] ≤ s[j] := by
  rcases Nat.lt_or_ge i j with h | h
  · exact List.pairwise_iff_getElem.mp hs i j hi hj h
  · have hij2 : i = j := le_antisymm hij h
    subst hij2
    exact le_refl _

/-- The last entry at or below k in a sorted list containing k equals k. -/
theorem sorted_boundary_eq (s : List ℚ) (hs : List.Pairwise (· ≤ ·) s)
    (k : ℚ) (hk : k ∈ s)
    (hm : s.length - 1 - s.countP (fun x => decide (k < x)) < s.length) :
    s[s.length - 1 - s.countP (fun x => decide (k < x))] = k := by
  have hGlt := countP_lt_length_of_mem s k hk
  obtain ⟨j, hj, hjk⟩ := List.mem_iff_getElem.mp hk
  have hjm : j ≤ s.length - 1 - s.countP (fun x => decide (k < x)) := by
    have := (sorted_getElem_le_iff k s hs j hj).mp (le_of_eq hjk)
    omega
  have h1 : s[s.length - 1 - s.countP (fun x => decide (k < x))] ≤ k :=
    (sorted_getElem_le_iff k s hs _ hm).mpr (by omega)
  have h2 := sorted_getElem_mono s hs hj hm hjm
  rw [hjk] at h2
  exact le_antisymm h1 h2

/-- The percentile_cont interpolation at quantile q lies at or below k
exactly when q * (n - 1) does not pass the last index holding a value at or
below k. -/
theorem interpolation_le_iff (s : List ℚ) (hs : List.Pairwise (· ≤ ·) s)
    (k : ℚ) (hk : k ∈ s) (q : ℚ) (hq0 : 0 ≤ q) (hq1 : q ≤ 1) :
    (s.getD ((Int.floor (q * ((s.length : ℚ) - 1))).toNat) 0 +
      (q * ((s.length : ℚ) - 1) -
        (((Int.floor (q * ((s.length : ℚ) - 1))).toNat : ℕ) : ℚ)) *
      (s.getD ((Int.floor (q * ((s.length : ℚ) - 1))).toNat + 1) 0 -
        s.getD ((Int.floor (q * ((s.length : ℚ) - 1))).toNat) 0) ≤ k) ↔
    q * ((s.length : ℚ) - 1) ≤
      ((s.length - 1 - s.countP (fun x => decide (k < x)) : ℕ) : ℚ) := by
  have hn : 0 < s.length := List.length_pos.mpr (List.ne_nil_of_mem hk)
  have hG := countP_lt_length_of_mem s k hk
  set n := s.length with hn_def
  set G := s.countP (fun x => decide (k < x)) with hG_def
  set m := n - 1 - G with hm_def
  set h : ℚ := q * ((n : ℚ) - 1) with hh_def
  have hn1 : (1 : ℚ) ≤ (n : ℚ) := by exact_mod_cast hn
  have hh0 : 0 ≤ h := mul_nonneg hq0 (by linarith)
  have hhle : h ≤ (n : ℚ) - 1 := by
    calc h = q * ((n : ℚ) - 1) := rfl
      _ ≤ 1 * ((n : ℚ) - 1) := by
          apply mul_le_mul_of_nonneg_right hq1
          linarith
      _ = (n : ℚ) - 1 := one_mul _
  set lo := (Int.floor h).toNat with hlo_def
  have hfl0 : 0 ≤ Int.floor h := Int.floor_nonneg.mpr hh0
  have hlocast : (lo : ℚ) = ((Int.floor h : ℤ) : ℚ) := by
    rw [hlo_def]
    exact_mod_cast congrArg (fun z : ℤ => (z : ℚ))
      (Int.toNat_of_nonneg hfl0)
  have hlole : (lo : ℚ) ≤ h := by
    rw [hlocast]
    exact Int.floor_le h
  have hlt1 : h < (lo : ℚ) + 1 := by
    rw [hlocast]
    exact_mod_cast Int.lt_floor_add_one h
  have hlon : lo < n := by
    have h2 : ((lo : ℚ) + 1) ≤ (n : ℚ) := by linarith
    have h3 : lo + 1 ≤ n := by exact_mod_cast h2
    omega
  have hmn : m < n := by omega
  have hA : ∀ i, ∀ hi : i < n, (s[i] ≤ k ↔ i ≤ m) := by
    intro i hi
    rw [sorted_getElem_le_iff k s hs i hi]
    omega
  have hgd0 : s.getD lo 0 = s[lo] := List.getD_eq_getElem s 0 hlon
  have hmcast : ((m : ℕ) : ℚ) = ((n - 1 - G : ℕ) : ℚ) := rfl
  -- the two directions
  have hle_dir : h ≤ (m : ℚ) →
      s.getD lo 0 + (h - (lo : ℚ)) * (s.getD (lo + 1) 0 - s.getD lo 0) ≤ k := by
    intro hcase
    have hlom : lo ≤ m := by
      have hq : (lo : ℚ) ≤ (m : ℚ) := le_trans hlole hcase
      exact_mod_cast hq
    have hslo : s[lo] ≤ k := (hA lo hlon).mpr hlom
    by_cases hfrac : h = (lo : ℚ)
    · rw [hgd0, hfrac]
      simp only [sub_self, zero_mul, add_zero]
      exact hslo
    · have hfpos : 0 < h - (lo : ℚ) :=
        sub_pos.mpr (lt_of_le_of_ne hlole (Ne.symm hfrac))
      have hlom2 : lo < m := by
        have hq : (lo : ℚ) < (m : ℚ) := lt_of_lt_of_le (by linarith) hcase
        exact_mod_cast hq
      have hlo1n : lo + 1 < n := by omega
      have hgd1 : s.getD (lo + 1) 0 = s[lo + 1] :=
        List.getD_eq_getElem s 0 hlo1n
      have hslo1 : s[lo + 1] ≤ k := (hA (lo + 1) hlo1n).mpr (by omega)
      rw [hgd0, hgd1]
      have hfr1 : h - (lo : ℚ) < 1 := by linarith
      nlinarith [hslo, hslo1, hfpos, hfr1]
  have hgt_dir : (m : ℚ) < h →
      k < s.getD lo 0 + (h - (lo : ℚ)) * (s.getD (lo + 1) 0 - s.getD lo 0) := by
    intro hcase
    have hmlo : m ≤ lo := by
      have h1 : (m : ℚ) < (lo : ℚ) + 1 := lt_trans hcase hlt1
      have h2 : m < lo + 1 := by exact_mod_cast h1
      omega
    by_cases heq : lo = m
    · have hfpos : 0 < h - (lo : ℚ) := by
        rw [heq]
        linarith
      have hlo1n : lo + 1 < n := by
        have h1 : (m : ℚ) < (n : ℚ) - 1 := lt_of_lt_of_le hcase hhle
        have h2 : (m : ℚ) + 1 < (n : ℚ) := by linarith
        have h3 : m + 1 < n := by exact_mod_cast h2
        omega
      have hgd1 : s.getD (lo + 1) 0 = s[lo + 1] :=
        List.getD_eq_getElem s 0 hlo1n
      have hsm : s[lo] = k := by
        have hb := sorted_boundary_eq s hs k hk hmn
        simp only [heq]
        exact hb
      have hsm1 : k < s[lo + 1] := by
        have hno : ¬ (lo + 1 ≤ m) := by omega
        have := (hA (lo + 1) hlo1n)
        by_contra hcon
        exact hno (this.mp (not_lt.mp hcon))
      rw [hgd0, hgd1, hsm]
      have hpos : 0 < (h - (lo : ℚ)) * (s[lo + 1] - k) :=
        mul_pos hfpos (sub_pos.mpr hsm1)
      linarith
    · have hmlt : m < lo := lt_of_le_of_ne hmlo (fun hc => heq hc.symm)
      have hslo : k < s[lo] := by
        have hno : ¬ (lo ≤ m) := by omega
        by_contra hcon
        exact hno ((hA lo hlon).mp (not_lt.mp hcon))
      by_cases hfrac : h = (lo : ℚ)
      · rw [hgd0, hfrac]
        simp only [sub_self, zero_mul, add_zero]
        exact hslo
      · have hfpos : 0 < h - (lo : ℚ) :=
          sub_pos.mpr (lt_of_le_of_ne hlole (Ne.symm hfrac))
        have hlo1n : lo + 1 < n := by
          have h1 : (lo : ℚ) < (n : ℚ) - 1 := by linarith
          have h2 : (lo : ℚ) + 1 < (n : ℚ) := by linarith
          have h3 : lo + 1 < n := by exact_mod_cast h2
          omega
        have hgd1 : s.getD (lo + 1) 0 = s[lo + 1] :=
          List.getD_eq_getElem s 0 hlo1n
        have hmono : s[lo] ≤ s[lo + 1] :=
          sorted_getElem_mono s hs hlon hlo1n (Nat.le_succ lo)
        rw [hgd0, hgd1]
        nlinarith [hslo, hmono, hfpos]
  constructor
  · intro hTk
    by_contra hcon
    exact absurd hTk (not_le.mpr (hgt_dir (by exact_mod_cast not_le.mp hcon)))
  · intro hle
    exact hle_dir (by exact_mod_cast hle)


/-- percentile_cont over a non-empty value list always returns a threshold,
and the threshold test against a member k reduces to an index
comparison. -/
theorem percentile_cont_le_iff (vs : List ℚ) (k : ℚ) (hk : k ∈ vs)
    (q : ℚ) (hq0 : 0 ≤ q) (hq1 : q ≤ 1) :
    ∃ T, percentile_cont q vs = some T ∧
      (T ≤ k ↔ q * ((vs.length : ℚ) - 1) ≤
        ((vs.length - 1 - vs.countP (fun x => decide (k < x)) : ℕ) : ℚ)) := by
  have hne : vs ≠ [] := List.ne_nil_of_mem hk
  have hperm : (vs.mergeSort (fun a b => decide (a ≤ b))).Perm vs :=
    List.mergeSort_perm vs _
  have hsorted :
      List.Pairwise (· ≤ ·) (vs.mergeSort (fun a b => decide (a ≤ b))) := by
    have hp := @List.sorted_mergeSort ℚ
      (fun a b : ℚ => decide (a ≤ b))
      (fun a b c hab hbc => by
        simp only [decide_eq_true_eq] at *
        exact le_trans hab hbc)
      (fun a b => by
        simp only [Bool.or_eq_true, decide_eq_true_eq]
        exact le_total a b) vs
    exact hp.imp (fun h => by simpa using h)
  have hks : k ∈ vs.mergeSort (fun a b => decide (a ≤ b)) :=
    hperm.mem_iff.mpr hk
  have hlen := hperm.length_eq
  have hcnt := hperm.countP_eq (fun x => decide (k < x))
  obtain ⟨T, hTeq, hTiff⟩ :
      ∃ T, percentile_cont q vs = some T ∧
        (T ≤ k ↔ q * (((vs.mergeSort (fun a b => decide (a ≤ b))).length : ℚ)
            - 1) ≤
          (((vs.mergeSort (fun a b => decide (a ≤ b))).length - 1 -
            (vs.mergeSort (fun a b => decide (a ≤ b))).countP
              (fun x => decide (k < x)) : ℕ) : ℚ)) := by
    refine ⟨_, ?_, interpolation_le_iff _ hsorted k hks q hq0 hq1⟩
    cases vs with
    | nil => exact absurd rfl hne
    | cons a t => rfl
  rw [hlen, hcnt] at hTiff
  exact ⟨T, hTeq, hTiff⟩

/-- Claim C2: for every user karma among the chat's values and percentile
threshold in [0, 1], the PostgreSQL percentile_cont check and the generic
strict-count check either agree, or the user's position (strictly greater
count over total rows N) lies within 1/N of the threshold. -/
theorem pg_generic_percentile_tolerance (k p : ℚ) (vs : List ℚ)
    (hk : k ∈ vs) (hp0 : 0 ≤ p) (hp1 : p ≤ 1) :
    is_user_in_top_percentile_pg k vs p =
      is_user_in_top_percentile_generic k vs p ∨
    |((vs.filter fun x => decide (k < x)).length : ℚ) / (vs.length : ℚ) - p|
      ≤ 1 / (vs.length : ℚ) := by
  have hq0 : 0 ≤ 1 - p := by linarith
  have hq1 : 1 - p ≤ 1 := by linarith
  obtain ⟨T, hTeq, hTiff⟩ := percentile_cont_le_iff vs k hk (1 - p) hq0 hq1
  have hn : 0 < vs.length := List.length_pos.mpr (List.ne_nil_of_mem hk)
  have hG := countP_lt_length_of_mem vs k hk
  set n := vs.length with hn_def
  set G := vs.countP (fun x => decide (k < x)) with hG_def
  have hfilter : (vs.filter fun x => decide (k < x)).length = G :=
    (List.countP_eq_length_filter _ _).symm
  have hnQ : (0 : ℚ) < (n : ℚ) := by exact_mod_cast hn
  have hpg : is_user_in_top_percentile_pg k vs p = decide (T ≤ k) := by
    simp only [is_user_in_top_percentile_pg, hTeq]
  have hgen : is_user_in_top_percentile_generic k vs p =
      decide ((G : ℚ) / (n : ℚ) < p) := by
    unfold is_user_in_top_percentile_generic
    rw [if_neg hn.ne', hfilter]
  have hcast : ((n - 1 - G : ℕ) : ℚ) = (n : ℚ) - 1 - (G : ℚ) := by
    have h1 : G ≤ n - 1 := by omega
    have h2 : 1 ≤ n := hn
    rw [Nat.cast_sub h1, Nat.cast_sub h2, Nat.cast_one]
  have hpgiff : (T ≤ k) ↔ (G : ℚ) ≤ p * ((n : ℚ) - 1) := by
    rw [hTiff, hcast]
    constructor <;> intro hx <;> nlinarith
  by_cases hpgT : T ≤ k
  · by_cases hgenT : (G : ℚ) / (n : ℚ) < p
    · left
      rw [hpg, hgen]
      simp [hpgT, hgenT]
    · right
      have h1 : (G : ℚ) ≤ p * ((n : ℚ) - 1) := hpgiff.mp hpgT
      have h2 : p * (n : ℚ) ≤ (G : ℚ) := by
        have := not_lt.mp hgenT
        rw [le_div_iff₀ hnQ] at this
        exact this
      have hGnonneg : (0 : ℚ) ≤ (G : ℚ) := Nat.cast_nonneg G
      have hple : p ≤ 0 := by nlinarith
      have hpz : p = 0 := le_antisymm hple hp0
      have hGz : (G : ℚ) = 0 := by
        rw [hpz] at h1
        simp at h1
        exact_mod_cast h1
      rw [hfilter, hGz, hpz]
      simp
  · by_cases hgenT : (G : ℚ) / (n : ℚ) < p
    · right
      have h1 : p * ((n : ℚ) - 1) < (G : ℚ) :=
        not_le.mp (fun hle => hpgT (hpgiff.mpr hle))
      have h2 : (G : ℚ) < p * (n : ℚ) := (div_lt_iff₀ hnQ).mp hgenT
      rw [hfilter]
      have e1 : (G : ℚ) / (n : ℚ) - p = ((G : ℚ) - p * (n : ℚ)) / (n : ℚ) := by
        field_simp
        ring
      rw [e1, abs_div, abs_of_pos hnQ, div_le_div_iff_of_pos_right hnQ]
      rw [abs_le]
      constructor <;> nlinarith
    · left
      rw [hpg, hgen]
      simp [hpgT, hgenT]

/-- Witness for claim C2: karma 0 among the chat values [0, 10] at
threshold 3/10. -/
theorem pg_generic_percentile_tolerance_witness :
    ((0 : ℚ) ∈ [(0 : ℚ), 10] ∧ (0 : ℚ) ≤ 3 / 10 ∧ (3 / 10 : ℚ) ≤ 1) ∧
    (is_user_in_top_percentile_pg 0 [(0 : ℚ), 10] (3 / 10) =
        is_user_in_top_percentile_generic 0 [(0 : ℚ), 10] (3 / 10) ∨
      |((([(0 : ℚ), 10].filter fun x => decide ((0 : ℚ) < x)).length : ℚ)) /
          (([(0 : ℚ), 10].length : ℚ)) - 3 / 10| ≤
        1 / (([(0 : ℚ), 10].length : ℚ))) :=
  ⟨⟨by simp, by norm_num, by norm_num⟩,
   pg_generic_percentile_tolerance 0 (3 / 10) [(0 : ℚ), 10] (by simp)
     (by norm_num) (by norm_num)⟩

end KarmaBot
